import Mathlib

/-!
Verification development for the particle-collider virtual-device transport
stack.  The JavaScript sources are shallowly embedded: buffers are `List Nat`
(byte values), JavaScript numbers that can become `NaN` are embedded as `JNum`,
fallible code returns `Except`, and the external `node` crypto primitives
(RSA, AES block cipher, HMAC) are taken as function parameters, while all of
the repository's own logic (framing, IV chaining, handshake checks, counters)
is translated line by line from the source files.
-/

/-- Errors thrown by the embedded streams.  The source throws `Error` objects;
we model them as an enumeration to keep statements executable. -/
inductive StreamError where
  /-- `CryptoStream._transform`: "Chunk didn't have any length" -/
  | emptyChunk : StreamError
  /-- `CryptoStream._transform`: decryption failure (bad final block / padding) -/
  | badDecrypt : StreamError
  /-- `ChunkingStream.process`: "hmm, shouldn't end up here." -/
  | unexpectedState : StreamError
  /-- `TCPDevice._onReadData`: "HMAC did not match" -/
  | hmacMismatch : StreamError
  /-- fuel exhaustion shim: the source re-invokes `process` on a strictly
  shorter remainder, so with fuel `chunk.length + 1` this is unreachable. -/
  | recursionLimit : StreamError
deriving DecidableEq

deriving instance DecidableEq for Except

/-- A JavaScript number that may be `NaN`.  `ChunkingStream.process` reads
`chunk[1]` without a bounds check; on a 1-byte chunk that is `undefined` and
the arithmetic result is `NaN`, which we track faithfully. -/
inductive JNum where
  | nan : JNum
  | int : Int → JNum
deriving DecidableEq

/-- JavaScript `+` on numbers: `NaN` is absorbing. -/
def jAdd : JNum → JNum → JNum
  | .int a, .int b => .int (a + b)
  | _, _ => .nan

/-- JavaScript `-` on numbers: `NaN` is absorbing. -/
def jSub : JNum → JNum → JNum
  | .int a, .int b => .int (a - b)
  | _, _ => .nan

/-- JavaScript `<`: any comparison with `NaN` is false. -/
def jLt : JNum → JNum → Bool
  | .int a, .int b => a < b
  | _, _ => false

/-- JavaScript `>`: any comparison with `NaN` is false. -/
def jGt : JNum → JNum → Bool
  | .int a, .int b => a > b
  | _, _ => false

/-- JavaScript `>=`: any comparison with `NaN` is false. -/
def jGe : JNum → JNum → Bool
  | .int a, .int b => a ≥ b
  | _, _ => false

/-- JavaScript `===` on numbers: `NaN === NaN` is false. -/
def jStrictEq : JNum → JNum → Bool
  | .int a, .int b => a == b
  | _, _ => false

/-- Coercion used where the source hands a number to a `Buffer` API
(`new Buffer(n)` allocation size, slice offsets): `NaN` behaves as 0. -/
def jToNat : JNum → Nat
  | .nan => 0
  | .int a => a.toNat

/-- `source.copy(target, targetStart)` for Node buffers: writes `src` into
`target` starting at `targetStart`, truncated to the target's capacity; the
target's length never changes. -/
def bufCopy (target : List Nat) (targetStart : Nat) (src : List Nat) : List Nat :=
  target.take targetStart ++ src.take (target.length - targetStart) ++
    target.drop (targetStart + min src.length (target.length - targetStart))

/-- `Buffer.prototype.compare` (used as `hash.compare(decryptedHMAC)`):
lexicographic byte order, ties broken by length; `-1` when the receiver sorts
before the argument, `1` after, `0` on equality. -/
def bufCompare : List Nat → List Nat → Int
  | [], [] => 0
  | [], _ :: _ => -1
  | _ :: _, [] => 1
  | a :: as, b :: bs =>
    if a < b then -1 else if b < a then 1 else bufCompare as bs

namespace ChunkingStream

/-- Inbound framer state of `ChunkingStream`
(`_expectedLength`, `_incomingBuffer`, `_incomingIndex`).
`_expectedLength` starts uninitialized (`undefined`); it is never read before
being assigned because `_incomingIndex = -1` forces the new-message branch, and
`undefined` arithmetic coincides with `NaN`, so we start it at `.nan`. -/
structure State where
  expectedLength : JNum
  incomingBuffer : Option (List Nat)
  incomingIndex : JNum
deriving DecidableEq

/-- The initial inbound framer state. -/
def initState : State := ⟨.nan, none, .int (-1)⟩

/-- `ChunkingStream.process`, translated statement by statement from
`src/lib/ChunkingStream.js`.  The source re-enters itself on the remainder of
the chunk after emitting a frame; each re-entry strictly shortens the chunk,
so `fuel = chunk.length + 1` (supplied by `process` below) never runs out on
the states the stream actually reaches.  Returns the new state and the list of
frames pushed, in order. -/
def processFuel : Nat → State → List Nat → Except StreamError (State × List (List Nat))
  | 0, _, _ => .error .recursionLimit
  | fuel + 1, s, chunk =>
    let isNewMessage := jStrictEq s.incomingIndex (.int (-1))
    -- `this._expectedLength = (chunk[0] << 8) + chunk[1];` — out-of-range
    -- Buffer reads are `undefined`; `(x << 8) + undefined` is `NaN`.
    let expectedLength : JNum :=
      if isNewMessage then
        match chunk with
        | c0 :: c1 :: _ => .int (c0 * 256 + c1)
        | _ => .nan
      else s.expectedLength
    -- `new Buffer(this._expectedLength)`: `NaN` allocates an empty buffer.
    let incomingBuffer : Option (List Nat) :=
      if isNewMessage then some (List.replicate (jToNat expectedLength) 0)
      else s.incomingBuffer
    let incomingIndex : JNum := if isNewMessage then .int 0 else s.incomingIndex
    let startIndex : Int := if isNewMessage then 2 else 0
    let bytesLeft := jSub expectedLength incomingIndex
    let endIndexRaw := jAdd (.int startIndex) bytesLeft
    let endIndex :=
      if jGt endIndexRaw (.int chunk.length) then JNum.int chunk.length else endIndexRaw
    let copyStep : Except StreamError (Option (List Nat)) :=
      match incomingBuffer with
      | some buf =>
        if jLt (.int startIndex) endIndex then
          if jGe incomingIndex (.int buf.length) then .error .unexpectedState
          else
            .ok (some (bufCopy buf (jToNat incomingIndex)
              ((chunk.drop startIndex.toNat).take (jToNat endIndex - startIndex.toNat))))
        else .ok (some buf)
      | none => .ok none
    match copyStep with
    | .error e => .error e
    | .ok incomingBuffer2 =>
      let incomingIndex2 := jAdd incomingIndex (jSub endIndex (.int startIndex))
      let remainder : Option (List Nat) :=
        if jLt endIndex (.int chunk.length) then some (chunk.drop (jToNat endIndex))
        else none
      if jStrictEq incomingIndex2 expectedLength && incomingBuffer2.isSome then
        let emitted := incomingBuffer2.getD []
        let reset : State := ⟨.int (-1), none, .int (-1)⟩
        match remainder with
        | none => .ok (reset, [emitted])
        | some r =>
          match processFuel fuel reset r with
          | .error e => .error e
          | .ok (s3, frames) => .ok (s3, emitted :: frames)
      else
        .ok (⟨expectedLength, incomingBuffer2, incomingIndex2⟩, [])

/-- `ChunkingStream.process` on one (non-null) chunk. -/
def process (s : State) (chunk : List Nat) : Except StreamError (State × List (List Nat)) :=
  processFuel (chunk.length + 1) s chunk

/-- Feed a sequence of byte chunks through the inbound `ChunkingStream`,
collecting all frames pushed, in order. -/
def runChunks (s : State) : List (List Nat) → Except StreamError (State × List (List Nat))
  | [] => .ok (s, [])
  | c :: cs =>
    match process s c with
    | .error e => .error e
    | .ok (s2, frames) =>
      match runChunks s2 cs with
      | .error e => .error e
      | .ok (s3, frames2) => .ok (s3, frames ++ frames2)

/-- `messageLengthBytes` from `src/lib/ChunkingStream.js`, for a `Buffer`
message (a `Buffer` is always truthy, so the null branch never fires):
`lengthBuffer[0] = length >>> 8; lengthBuffer[1] = length & 255;` where a
`Buffer` element store reduces the value modulo 256 and `>>>` first reduces
its operand modulo 2^32. -/
def messageLengthBytes (msg : List Nat) : List Nat :=
  [((msg.length % 4294967296) >>> 8) % 256, (msg.length &&& 255) % 256]

/-- Outgoing `ChunkingStream._transform`: pushes the 2-byte length header
concatenated with the whole message. -/
def outgoingTransform (msg : List Nat) : List Nat :=
  messageLengthBytes msg ++ msg

end ChunkingStream

/-! ### AES-128-CBC one-shot, as performed by `crypto.createCipheriv` /
`crypto.createDecipheriv` with `cipher.update` + `cipher.final`.

The AES block permutation itself lives in node's crypto library, outside this
repository, so it enters the embedding as a function parameter
`E, D : List Nat → List Nat` on 16-byte blocks (`D` its inverse).  The CBC
mode, PKCS#7 padding and the repository's chained-IV discipline are embedded
concretely. -/

/-- Bytewise xor of two equal-length byte lists (CBC whitening). -/
def xorBytes (a b : List Nat) : List Nat :=
  List.zipWith (fun x y => x ^^^ y) a b

/-- PKCS#7 padding to 16-byte blocks: append `p = 16 - len % 16` bytes of
value `p` (a full block when the length is already a multiple of 16). -/
def pkcs7pad (m : List Nat) : List Nat :=
  m ++ List.replicate (16 - m.length % 16) (16 - m.length % 16)

/-- PKCS#7 unpadding: the last byte `p` must be in `1..16` and the last `p`
bytes must all equal `p`; otherwise the decipher throws (modeled as `none`). -/
def pkcs7unpad (m : List Nat) : Option (List Nat) :=
  match m.getLast? with
  | none => none
  | some p =>
    if 1 ≤ p ∧ p ≤ 16 ∧ p ≤ m.length ∧ (m.drop (m.length - p)).all (fun x => x = p)
    then some (m.take (m.length - p))
    else none

/-- Split a byte list into consecutive 16-byte blocks (the last block may be
short if the length is not a multiple of 16).  Structured with a fuel
argument equal to the list length so that it is structurally recursive;
each step removes at least one element, so the fuel suffices. -/
def chunks16Fuel : Nat → List Nat → List (List Nat)
  | _, [] => []
  | 0, l => [l]
  | fuel + 1, l => l.take 16 :: chunks16Fuel fuel (l.drop 16)

/-- Split a byte list into consecutive 16-byte blocks. -/
def chunks16 (l : List Nat) : List (List Nat) :=
  chunks16Fuel l.length l

/-- CBC encryption over plaintext blocks: each block is xored with the running
IV and passed through the block cipher `E`; the produced ciphertext block
becomes the next IV. -/
def cbcEncryptBlocks (E : List Nat → List Nat) (iv : List Nat) :
    List (List Nat) → List (List Nat)
  | [] => []
  | p :: ps =>
    let c := E (xorBytes iv p)
    c :: cbcEncryptBlocks E c ps

/-- CBC decryption over ciphertext blocks: each block is passed through the
inverse cipher `D` and xored with the running IV; the ciphertext block itself
becomes the next IV. -/
def cbcDecryptBlocks (D : List Nat → List Nat) (iv : List Nat) :
    List (List Nat) → List (List Nat)
  | [] => []
  | c :: cs => xorBytes iv (D c) :: cbcDecryptBlocks D c cs

/-- One-shot CBC encryption with PKCS#7 padding (what
`cipher.update(chunk) ++ cipher.final()` produces). -/
def cbcEncrypt (E : List Nat → List Nat) (iv m : List Nat) : List Nat :=
  (cbcEncryptBlocks E iv (chunks16 (pkcs7pad m))).flatten

/-- One-shot CBC decryption with PKCS#7 unpadding; the decipher throws
(`none`) on an empty input, an input that is not a multiple of the block
size, or invalid padding. -/
def cbcDecrypt (D : List Nat → List Nat) (iv c : List Nat) : Option (List Nat) :=
  if c.length % 16 = 0 ∧ c ≠ [] then
    pkcs7unpad (cbcDecryptBlocks D iv (chunks16 c)).flatten
  else none

namespace CryptoStream

/-- `streamType` option of `CryptoStream`. -/
inductive StreamType where
  | encrypt : StreamType
  | decrypt : StreamType
deriving DecidableEq

/-- `CryptoStream` state: `_key`, `_iv`, `_streamType`.  The block cipher
keyed by `_key` is supplied externally as `E key` / `D key`. -/
structure State where
  key : List Nat
  iv : List Nat
  streamType : StreamType
deriving DecidableEq

/-- `CryptoStream._transform` from `src/lib/CryptoStream.js`: rejects empty
chunks, runs the one-shot AES-128-CBC cipher for the stream's direction, then
replaces `_iv` with the bytes `0..16` (the *first* 16 bytes) of the
ciphertext side — `ivContainer` is the output for the encrypt direction and
the input chunk for the decrypt direction — and pushes the cipher output. -/
def transform (E D : List Nat → List Nat → List Nat) (s : State) (chunk : List Nat) :
    Except StreamError (State × List Nat) :=
  if chunk.length = 0 then .error .emptyChunk
  else
    match s.streamType with
    | .encrypt =>
      let output := cbcEncrypt (E s.key) s.iv chunk
      .ok (⟨s.key, output.take 16, .encrypt⟩, output)
    | .decrypt =>
      match cbcDecrypt (D s.key) s.iv chunk with
      | none => .error .badDecrypt
      | some output => .ok (⟨s.key, chunk.take 16, .decrypt⟩, output)

/-- Push a sequence of whole frames through a `CryptoStream`, collecting the
transformed frames in order. -/
def runCrypto (E D : List Nat → List Nat → List Nat) :
    State → List (List Nat) → Except StreamError (State × List (List Nat))
  | s, [] => .ok (s, [])
  | s, c :: cs =>
    match transform E D s c with
    | .error e => .error e
    | .ok (s2, out) =>
      match runCrypto E D s2 cs with
      | .error e => .error e
      | .ok (s3, outs) => .ok (s3, out :: outs)

end CryptoStream

namespace TCPDevice

/-- `COUNTER_MAX` from `src/devices/TCPDevice.js`. -/
def COUNTER_MAX : Nat := 65536

/-- `DESCRIBE_APPLICATION = 1 << 1`. -/
def DESCRIBE_APPLICATION : Nat := 1 <<< 1

/-- `DESCRIBE_SYSTEM = 1 << 0`. -/
def DESCRIBE_SYSTEM : Nat := 1 <<< 0

/-- `DESCRIBE_ALL = DESCRIBE_APPLICATION | DESCRIBE_SYSTEM`. -/
def DESCRIBE_ALL : Nat := DESCRIBE_APPLICATION ||| DESCRIBE_SYSTEM

/-- `_nextMessageID`: increments `_messageID`, wraps to 0 at `COUNTER_MAX`,
and returns the new value (which is also the stored counter). -/
def nextMessageID (messageID : Nat) : Nat :=
  let m := messageID + 1
  if m ≥ COUNTER_MAX then 0 else m

/-- The counter value after `k` calls of `_nextMessageID` starting from
`init`; the `k`-th outbound packet (`k ≥ 1`) carries `messageIDAfter init k`. -/
def messageIDAfter (init : Nat) : Nat → Nat
  | 0 => init
  | k + 1 => nextMessageID (messageIDAfter init k)

/-- The device protocol states (`type DeviceState`). -/
inductive DeviceState where
  | nonce : DeviceState
  | setSessionKey : DeviceState
  | next : DeviceState
deriving DecidableEq

/-- `_prepareDevicePublicKey(nonce)`: concatenates the server nonce, the
12-byte device id, and the device's PKCS#8-DER public key bytes. -/
def prepareDevicePublicKey (deviceID publicKeyDER nonce : List Nat) : List Nat :=
  nonce ++ deviceID ++ publicKeyDER

/-- Result of the `'nonce'` branch of `_onReadData`: the raw-socket writes it
performs (pre-framing, pre-cipher) and the state it transitions to. -/
structure NonceStepResult where
  socketWrites : List (List Nat)
  state : DeviceState
deriving DecidableEq

/-- The `'nonce'` branch of `_onReadData`: encrypt the prepared payload under
the server public key (`serverEncrypt`, external RSA primitive), write the
ciphertext to the raw socket unless it is destroyed, and transition to
`'set-session-key'`. -/
def onReadDataNonce (serverEncrypt : List Nat → List Nat) (socketDestroyed : Bool)
    (deviceID publicKeyDER data : List Nat) : NonceStepResult :=
  { socketWrites :=
      if socketDestroyed then []
      else [serverEncrypt (prepareDevicePublicKey deviceID publicKeyDER data)],
    state := .setSessionKey }

/-- Everything the `'set-session-key'` branch of `_onReadData` derives from a
successfully verified session key. -/
structure SessionSetup where
  sessionKey : List Nat
  key : List Nat
  iv : List Nat
  salt : List Nat
  messageID : Nat
  token : List Nat
  decipherState : CryptoStream.State
  cipherState : CryptoStream.State
  state : DeviceState
  isConnected : Bool
deriving DecidableEq

/-- The `'set-session-key'` branch of `_onReadData`: split the 256-byte chunk
into `cipherText` (128 bytes) and `signedHMAC`, decrypt the session key with
the device private key, recompute the HMAC-SHA1 of the ciphertext keyed by the
session key, decrypt the signed HMAC with the server public key, and throw
`'HMAC did not match'` when `hash.compare(decryptedHMAC) === -1`; otherwise
derive key/iv/salt/message-id/token from the session key and build the two
crypto streams, both seeded with `sessionKey[16..32]` as IV.  The external
RSA and HMAC primitives are parameters. -/
def setSessionKeyStep (decryptPrivate decryptPublic : List Nat → List Nat)
    (hmacSha1 : List Nat → List Nat → List Nat) (data : List Nat) :
    Except StreamError SessionSetup :=
  let cipherText := data.take 128
  let signedHMAC := data.drop 128
  let sessionKey := decryptPrivate cipherText
  let hash := hmacSha1 cipherText sessionKey
  let decryptedHMAC := decryptPublic signedHMAC
  if bufCompare hash decryptedHMAC = -1 then .error .hmacMismatch
  else
    .ok { sessionKey := sessionKey
          key := sessionKey.take 16
          iv := (sessionKey.drop 16).take 16
          salt := sessionKey.drop 32
          messageID := (sessionKey.getD 32 0 <<< 8) ||| sessionKey.getD 33 0
          token := sessionKey.drop 34
          decipherState := ⟨sessionKey.take 16, (sessionKey.drop 16).take 16, .decrypt⟩
          cipherState := ⟨sessionKey.take 16, (sessionKey.drop 16).take 16, .encrypt⟩
          state := .next
          isConnected := true }

/-- The fields of the CoAP packets this device hands to
`CoapPacket.generate`. -/
structure CoapMessage where
  code : String
  confirmable : Bool
  messageId : Nat
  uriPath : Option String
  token : List Nat
  payload : List Nat
deriving DecidableEq

/-- The canned JSON Describe blob: `JSON.stringify` of the object literal in
`_sendDescribe` (insertion-order keys, no whitespace). -/
def description : String :=
  "\x7b\"f\":[\"testfn\"],\"v\":\x7b\"testVar\":\"INT\"\x7d,\"p\":6,\"m\":[" ++
  "\x7b\"s\":16384,\"l\":\"m\",\"vc\":30,\"vv\":30,\"f\":\"b\",\"n\":\"0\"," ++
  "\"v\":11,\"d\":[]\x7d,\x7b\"s\":262144,\"l\":\"m\",\"vc\":30,\"vv\":30," ++
  "\"f\":\"s\",\"n\":\"1\",\"v\":105,\"d\":[]\x7d,\x7b\"s\":262144,\"l\":\"" ++
  "m\",\"vc\":30,\"vv\":30,\"f\":\"s\",\"n\":\"2\",\"v\":105,\"d\":[\x7b\"f" ++
  "\":\"s\",\"n\":\"1\",\"v\":105,\"_\":\"\"\x7d]\x7d,\x7b\"s\":131072,\"l" ++
  "\":\"m\",\"vc\":30,\"vv\":30,\"u\":\"2BA4E71E840F596B812003882AAE7CA6496" ++
  "F1590CA4A049310AF76EAF11C943A\",\"f\":\"u\",\"n\":\"1\",\"v\":2,\"d\":[" ++
  "\x7b\"f\":\"s\",\"n\":\"2\",\"v\":1,\"_\":\"\"\x7d]\x7d,\x7b\"s\":131072" ++
  ",\"l\":\"f\",\"vc\":30,\"vv\":0,\"d\":[]\x7d]\x7d"

/-- `new Buffer(description)`: the UTF-8 bytes of the canned blob (all
ASCII). -/
def descriptionBytes : List Nat :=
  description.toList.map Char.toNat

/-- The Describe flag computation at the top of the `Describe` case of
`_onNewCoapMessage`: use `payload[8]` verbatim when the payload is longer
than 8 bytes and the byte is at most `DESCRIBE_ALL`, else fall back to
`DESCRIBE_ALL`. -/
def describeFlags (payload : List Nat) : Nat :=
  if payload.length > 8 ∧ payload.getD 8 0 ≤ DESCRIBE_ALL then payload.getD 8 0
  else DESCRIBE_ALL

/-- Whether the `Describe` case logs `Invalid DESCRIBE flags` (the
`else if (payload.length > 8)` branch). -/
def describeLogsInvalidFlag (payload : List Nat) : Bool :=
  if payload.length > 8 ∧ payload.getD 8 0 ≤ DESCRIBE_ALL then false
  else if payload.length > 8 then true
  else false

/-- `_sendDescribe(descriptionFlags, serverPacket)`: replies `2.05` Content
with the canned JSON blob, echoing the server packet's token, under the next
message-id; returns the packet and the updated counter.  (The
`descriptionFlags` argument is accepted and ignored, as in the source.) -/
def sendDescribe (descriptionFlags : Nat) (serverToken : List Nat) (messageID : Nat) :
    CoapMessage × Nat :=
  let mid := nextMessageID messageID
  ({ code := "2.05", confirmable := false, messageId := mid, uriPath := none,
     token := serverToken, payload := descriptionBytes }, mid)

/-- The whole `Describe` case of `_onNewCoapMessage`: compute the flags (and
whether the invalid-flag log fires), then send the describe reply. -/
def onDescribeRequest (payload requestToken : List Nat) (messageID : Nat) :
    Nat × Bool × CoapMessage × Nat :=
  (describeFlags payload, describeLogsInvalidFlag payload,
    sendDescribe (describeFlags payload) requestToken messageID)

/-! ### Connection control (`connect` / `disconnect` / `_reconnect`)

The observable control state of one `TCPDevice`: the boolean flags, whether
the socket event handlers are attached, the number of scheduled (and not yet
fired) 15-second reconnect timeouts — the source keeps no handle to them, so
nothing ever cancels one — and a counter of socket creations so that "connect
did something" is observable. -/

/-- Control-flow state of a `TCPDevice` session. -/
structure Ctl where
  isConnecting : Bool
  isConnected : Bool
  isDisconnected : Bool
  state : DeviceState
  listenersAttached : Bool
  socketDestroyed : Bool
  pingActive : Bool
  pendingReconnects : Nat
  socketsCreated : Nat
deriving DecidableEq

/-- Fresh device: constructor sets `_state = 'nonce'`; no socket yet. -/
def initCtl : Ctl :=
  { isConnecting := false, isConnected := false, isDisconnected := false,
    state := .nonce, listenersAttached := false, socketDestroyed := true,
    pingActive := false, pendingReconnects := 0, socketsCreated := 0 }

/-- `connect()`: a no-op while `_isConnecting`; otherwise creates a fresh
socket and attaches the data/error/close/timeout listeners.  Note that it
does not consult `_isDisconnected`. -/
def connectStep (s : Ctl) : Ctl :=
  if s.isConnecting then s
  else { s with isConnecting := true, socketDestroyed := false,
                listenersAttached := true, socketsCreated := s.socketsCreated + 1 }

/-- `_disconnect()`: tear down streams/listeners/socket/ping timer; a no-op
when the session is already user-disconnected. -/
def disconnectInternal (s : Ctl) : Ctl :=
  if s.isDisconnected then s
  else { s with isConnecting := false, isConnected := false, state := .nonce,
                listenersAttached := false, socketDestroyed := true,
                pingActive := false }

/-- `disconnect()` (user-initiated): `_disconnect()` then mark the session
terminal.  No reconnect timeout is cancelled — the source never stores the
`setTimeout` handle. -/
def disconnectUser (s : Ctl) : Ctl :=
  { disconnectInternal s with isDisconnected := true }

/-- `_reconnect(error)`: unless user-disconnected, tear down and schedule
`connect()` 15 seconds later. -/
def reconnectHandler (s : Ctl) : Ctl :=
  if s.isDisconnected then s
  else { disconnectInternal s with pendingReconnects := s.pendingReconnects + 1 }

/-- External events driving the control state: the two public operations, a
socket `error`/`close`/`timeout` (all wired to `_reconnect`), and the firing
of a previously scheduled 15-second reconnect timeout (whose callback is
`() => this.connect()`, unguarded). -/
inductive DevEvent where
  | userConnect : DevEvent
  | userDisconnect : DevEvent
  | socketFail : DevEvent
  | reconnectTimerFires : DevEvent
deriving DecidableEq

/-- One control-state transition per event. -/
def devStep (s : Ctl) : DevEvent → Ctl
  | .userConnect => connectStep s
  | .userDisconnect => disconnectUser s
  | .socketFail => if s.listenersAttached then reconnectHandler s else s
  | .reconnectTimerFires =>
    if s.pendingReconnects > 0 then
      connectStep { s with pendingReconnects := s.pendingReconnects - 1 }
    else s

/-- Run a sequence of events against the control state. -/
def runDevice (s : Ctl) : List DevEvent → Ctl
  | [] => s
  | e :: es => runDevice (devStep s e) es

end TCPDevice

/-! ### Helper lemmas -/

theorem getD_lt_256 (l : List Nat) (h : ∀ x ∈ l, x < 256) (i : Nat) : l.getD i 0 < 256 := by
  rw [List.getD_eq_getElem?_getD]
  rcases hl : l[i]? with _ | x
  · simp
  · simpa using h x (List.getElem?_mem hl)

theorem chunks16Fuel_irrel : ∀ n m (l : List Nat), l.length ≤ n → l.length ≤ m →
    chunks16Fuel n l = chunks16Fuel m l := by
  intro n
  induction n with
  | zero =>
    intro m l hn hm
    have : l = [] := List.eq_nil_of_length_eq_zero (Nat.le_zero.mp hn)
    subst this
    cases m <;> rfl
  | succ n ih =>
    intro m l hn hm
    cases l with
    | nil => cases m <;> rfl
    | cons a l' =>
      cases m with
      | zero => simp at hm
      | succ m =>
        show (a :: l').take 16 :: chunks16Fuel n ((a :: l').drop 16) =
          (a :: l').take 16 :: chunks16Fuel m ((a :: l').drop 16)
        congr 1
        apply ih <;>
          (simp only [List.length_drop, List.length_cons] at *; omega)

theorem chunks16_cons (l : List Nat) (h : l ≠ []) :
    chunks16 l = l.take 16 :: chunks16 (l.drop 16) := by
  cases l with
  | nil => exact absurd rfl h
  | cons a l' =>
    show (a :: l').take 16 :: chunks16Fuel l'.length ((a :: l').drop 16) =
      (a :: l').take 16 :: chunks16 ((a :: l').drop 16)
    congr 1
    unfold chunks16
    apply chunks16Fuel_irrel <;>
      (simp only [List.length_drop, List.length_cons]; omega)

theorem chunks16_nil : chunks16 [] = [] := rfl

theorem flatten_chunks16 (l : List Nat) : (chunks16 l).flatten = l := by
  have H : ∀ n (l : List Nat), l.length ≤ n → (chunks16 l).flatten = l := by
    intro n
    induction n with
    | zero =>
      intro l hn
      have : l = [] := List.eq_nil_of_length_eq_zero (Nat.le_zero.mp hn)
      subst this; rfl
    | succ n ih =>
      intro l hn
      by_cases hne : l = []
      · subst hne; rfl
      · have hlen : l.length ≠ 0 := fun h0 => hne (List.eq_nil_of_length_eq_zero h0)
        rw [chunks16_cons l hne, List.flatten_cons,
          ih _ (by simp only [List.length_drop]; omega)]
        exact List.take_append_drop 16 l
  exact H l.length l (le_refl _)

theorem chunks16_append16 (b rest : List Nat) (hb : b.length = 16) :
    chunks16 (b ++ rest) = b :: chunks16 rest := by
  have hne : b ++ rest ≠ [] := by
    intro h
    have := congrArg List.length h
    simp [hb] at this
  rw [chunks16_cons _ hne]
  congr 1
  · rw [List.take_append_eq_append_take, List.take_of_length_le (by omega), hb]
    simp
  · congr 1
    rw [List.drop_append_eq_append_drop, List.drop_of_length_le (by omega), hb]
    simp

theorem chunks16_all16 (l : List Nat) (h : l.length % 16 = 0) :
    ∀ x ∈ chunks16 l, x.length = 16 := by
  have H : ∀ n (l : List Nat), l.length ≤ n → l.length % 16 = 0 →
      ∀ x ∈ chunks16 l, x.length = 16 := by
    intro n
    induction n with
    | zero =>
      intro l hn _ x hx
      have : l = [] := List.eq_nil_of_length_eq_zero (Nat.le_zero.mp hn)
      subst this
      simp [chunks16_nil] at hx
    | succ n ih =>
      intro l hn hmod x hx
      by_cases hne : l = []
      · subst hne; simp [chunks16_nil] at hx
      · have hlen : 16 ≤ l.length := by
          have : l.length ≠ 0 := fun h0 => hne (List.eq_nil_of_length_eq_zero h0)
          omega
        rw [chunks16_cons l hne] at hx
        rcases List.mem_cons.mp hx with h1 | h2
        · subst h1; simp only [List.length_take]; omega
        · exact ih (l.drop 16) (by simp only [List.length_drop]; omega)
            (by simp only [List.length_drop]; omega) x h2
  exact H l.length l (le_refl _) h

theorem xorBytes_length (a b : List Nat) : (xorBytes a b).length = min a.length b.length := by
  simp [xorBytes]

theorem xorBytes_xorBytes_cancel : ∀ (a b : List Nat), a.length = b.length →
    xorBytes a (xorBytes a b) = b := by
  intro a
  induction a with
  | nil =>
    intro b hb
    have : b = [] := List.eq_nil_of_length_eq_zero (by simp at hb; omega)
    subst this; rfl
  | cons x xs ih =>
    intro b hb
    cases b with
    | nil => simp at hb
    | cons y ys =>
      show (x ^^^ (x ^^^ y)) :: xorBytes xs (xorBytes xs ys) = y :: ys
      congr 1
      · rw [← Nat.xor_assoc, Nat.xor_self, Nat.zero_xor]
      · exact ih ys (by simpa using hb)

theorem pkcs7pad_length (m : List Nat) :
    (pkcs7pad m).length = m.length + (16 - m.length % 16) := by
  simp [pkcs7pad]

theorem pkcs7pad_length_mod (m : List Nat) : (pkcs7pad m).length % 16 = 0 := by
  rw [pkcs7pad_length]
  omega

theorem pkcs7pad_ne_nil (m : List Nat) : pkcs7pad m ≠ [] := by
  intro h
  have := congrArg List.length h
  rw [pkcs7pad_length] at this
  simp at this
  omega

theorem getLast?_replicate_of_pos (n x : Nat) (h : 0 < n) :
    (List.replicate n x).getLast? = some x := by
  cases n with
  | zero => omega
  | succ n =>
    rw [List.replicate_succ']
    exact List.getLast?_concat _

theorem pkcs7unpad_pkcs7pad (m : List Nat) : pkcs7unpad (pkcs7pad m) = some m := by
  set p := 16 - m.length % 16 with hp
  have hp1 : 1 ≤ p := by omega
  have hp16 : p ≤ 16 := by omega
  have hlast : (pkcs7pad m).getLast? = some p := by
    unfold pkcs7pad
    rw [← hp]
    rw [List.getLast?_append, getLast?_replicate_of_pos p p (by omega)]
    rfl
  unfold pkcs7unpad
  rw [hlast]
  dsimp only
  have hlen : (pkcs7pad m).length = m.length + p := by rw [pkcs7pad_length, ← hp]
  have hdrop : (pkcs7pad m).drop ((pkcs7pad m).length - p) = List.replicate p p := by
    rw [hlen]
    show (m ++ List.replicate p p).drop (m.length + p - p) = _
    rw [Nat.add_sub_cancel]
    exact List.drop_left m _
  have htake : (pkcs7pad m).take ((pkcs7pad m).length - p) = m := by
    rw [hlen]
    show (m ++ List.replicate p p).take (m.length + p - p) = _
    rw [Nat.add_sub_cancel]
    exact List.take_left m _
  rw [if_pos]
  · rw [htake]
  · refine ⟨hp1, hp16, by omega, ?_⟩
    rw [hdrop]
    simp [List.all_eq_true, List.mem_replicate]

theorem cbcEncryptBlocks_all16 (E : List Nat → List Nat)
    (hE : ∀ b, b.length = 16 → (E b).length = 16) :
    ∀ (ps : List (List Nat)) (iv : List Nat), iv.length = 16 →
      (∀ p ∈ ps, p.length = 16) →
      ∀ c ∈ cbcEncryptBlocks E iv ps, c.length = 16 := by
  intro ps
  induction ps with
  | nil => intro iv _ _ c hc; simp [cbcEncryptBlocks] at hc
  | cons p ps ih =>
    intro iv hiv hps c hc
    have hp : p.length = 16 := hps p (List.mem_cons_self _ _)
    have hx : (xorBytes iv p).length = 16 := by rw [xorBytes_length, hiv, hp]; rfl
    have hcE : (E (xorBytes iv p)).length = 16 := hE _ hx
    rw [show cbcEncryptBlocks E iv (p :: ps) =
      E (xorBytes iv p) :: cbcEncryptBlocks E (E (xorBytes iv p)) ps from rfl] at hc
    rcases List.mem_cons.mp hc with h1 | h2
    · subst h1; exact hcE
    · exact ih (E (xorBytes iv p)) hcE
        (fun q hq => hps q (List.mem_cons_of_mem _ hq)) c h2

theorem cbcDecryptBlocks_cbcEncryptBlocks (E D : List Nat → List Nat)
    (hE : ∀ b, b.length = 16 → (E b).length = 16)
    (hDE : ∀ b, b.length = 16 → D (E b) = b) :
    ∀ (ps : List (List Nat)) (iv : List Nat), iv.length = 16 →
      (∀ p ∈ ps, p.length = 16) →
      cbcDecryptBlocks D iv (cbcEncryptBlocks E iv ps) = ps := by
  intro ps
  induction ps with
  | nil => intro iv _ _; rfl
  | cons p ps ih =>
    intro iv hiv hps
    have hp : p.length = 16 := hps p (List.mem_cons_self _ _)
    have hx : (xorBytes iv p).length = 16 := by rw [xorBytes_length, hiv, hp]; rfl
    show xorBytes iv (D (E (xorBytes iv p))) ::
      cbcDecryptBlocks D (E (xorBytes iv p)) (cbcEncryptBlocks E (E (xorBytes iv p)) ps) =
      p :: ps
    congr 1
    · rw [hDE _ hx]
      exact xorBytes_xorBytes_cancel iv p (by omega)
    · exact ih (E (xorBytes iv p)) (hE _ hx)
        (fun q hq => hps q (List.mem_cons_of_mem _ hq))

theorem flatten_all16_length (bs : List (List Nat)) (h : ∀ b ∈ bs, b.length = 16) :
    bs.flatten.length = 16 * bs.length := by
  induction bs with
  | nil => rfl
  | cons b bs ih =>
    rw [List.flatten_cons, List.length_append, h b (List.mem_cons_self _ _),
      ih (fun x hx => h x (List.mem_cons_of_mem _ hx))]
    simp [Nat.mul_succ]
    omega

theorem chunks16_flatten_all16 (bs : List (List Nat)) (h : ∀ b ∈ bs, b.length = 16) :
    chunks16 bs.flatten = bs := by
  induction bs with
  | nil => rfl
  | cons b bs ih =>
    rw [List.flatten_cons, chunks16_append16 b _ (h b (List.mem_cons_self _ _)),
      ih (fun x hx => h x (List.mem_cons_of_mem _ hx))]

theorem cbcEncrypt_blocks16 (E : List Nat → List Nat)
    (hE : ∀ b, b.length = 16 → (E b).length = 16) (iv m : List Nat) (hiv : iv.length = 16) :
    ∀ c ∈ cbcEncryptBlocks E iv (chunks16 (pkcs7pad m)), c.length = 16 :=
  cbcEncryptBlocks_all16 E hE _ iv hiv (chunks16_all16 _ (pkcs7pad_length_mod m))

theorem cbcEncrypt_length_mod (E : List Nat → List Nat)
    (hE : ∀ b, b.length = 16 → (E b).length = 16) (iv m : List Nat) (hiv : iv.length = 16) :
    (cbcEncrypt E iv m).length % 16 = 0 := by
  unfold cbcEncrypt
  rw [flatten_all16_length _ (cbcEncrypt_blocks16 E hE iv m hiv)]
  omega

theorem cbcEncryptBlocks_length (E : List Nat → List Nat) :
    ∀ (ps : List (List Nat)) (iv : List Nat),
      (cbcEncryptBlocks E iv ps).length = ps.length := by
  intro ps
  induction ps with
  | nil => intro iv; rfl
  | cons p ps ih =>
    intro iv
    show (cbcEncryptBlocks E (E (xorBytes iv p)) ps).length + 1 = ps.length + 1
    rw [ih]

theorem cbcEncrypt_ne_nil (E : List Nat → List Nat)
    (hE : ∀ b, b.length = 16 → (E b).length = 16) (iv m : List Nat) (hiv : iv.length = 16) :
    cbcEncrypt E iv m ≠ [] := by
  intro h
  have hlen := congrArg List.length h
  unfold cbcEncrypt at hlen
  rw [flatten_all16_length _ (cbcEncrypt_blocks16 E hE iv m hiv),
    cbcEncryptBlocks_length] at hlen
  simp at hlen
  have hne := pkcs7pad_ne_nil m
  rw [chunks16_cons _ hne] at hlen
  simp at hlen

theorem cbcEncrypt_length_ge_16 (E : List Nat → List Nat)
    (hE : ∀ b, b.length = 16 → (E b).length = 16) (iv m : List Nat) (hiv : iv.length = 16) :
    16 ≤ (cbcEncrypt E iv m).length := by
  have h1 := cbcEncrypt_length_mod E hE iv m hiv
  have h2 := cbcEncrypt_ne_nil E hE iv m hiv
  have h3 : (cbcEncrypt E iv m).length ≠ 0 :=
    fun h0 => h2 (List.eq_nil_of_length_eq_zero h0)
  omega

theorem cbcDecrypt_cbcEncrypt (E D : List Nat → List Nat)
    (hE : ∀ b, b.length = 16 → (E b).length = 16)
    (hDE : ∀ b, b.length = 16 → D (E b) = b) (iv m : List Nat) (hiv : iv.length = 16) :
    cbcDecrypt D iv (cbcEncrypt E iv m) = some m := by
  unfold cbcDecrypt
  rw [if_pos ⟨cbcEncrypt_length_mod E hE iv m hiv, cbcEncrypt_ne_nil E hE iv m hiv⟩]
  have hchunks : chunks16 (cbcEncrypt E iv m) =
      cbcEncryptBlocks E iv (chunks16 (pkcs7pad m)) :=
    chunks16_flatten_all16 _ (cbcEncrypt_blocks16 E hE iv m hiv)
  rw [hchunks,
    cbcDecryptBlocks_cbcEncryptBlocks E D hE hDE _ iv hiv (chunks16_all16 _ (pkcs7pad_length_mod m)),
    flatten_chunks16, pkcs7unpad_pkcs7pad]

theorem transform_encrypt (E D : List Nat → List Nat → List Nat) (key iv m : List Nat)
    (hm : m ≠ []) :
    CryptoStream.transform E D ⟨key, iv, .encrypt⟩ m =
      .ok (⟨key, (cbcEncrypt (E key) iv m).take 16, .encrypt⟩, cbcEncrypt (E key) iv m) := by
  unfold CryptoStream.transform
  rw [if_neg (fun h => hm (List.eq_nil_of_length_eq_zero h))]

theorem transform_decrypt_eq (E D : List Nat → List Nat → List Nat) (key iv c out : List Nat)
    (hc : c ≠ []) (h : cbcDecrypt (D key) iv c = some out) :
    CryptoStream.transform E D ⟨key, iv, .decrypt⟩ c =
      .ok (⟨key, c.take 16, .decrypt⟩, out) := by
  unfold CryptoStream.transform
  rw [if_neg (fun h0 => hc (List.eq_nil_of_length_eq_zero h0))]
  dsimp only
  rw [h]

theorem transform_decrypt_iv (E D : List Nat → List Nat → List Nat) (key iv c : List Nat)
    (s : CryptoStream.State) (out : List Nat)
    (h : CryptoStream.transform E D ⟨key, iv, .decrypt⟩ c = .ok (s, out)) :
    s.iv = c.take 16 ∧ cbcDecrypt (D key) iv c = some out := by
  unfold CryptoStream.transform at h
  split at h
  · exact absurd h (by simp)
  · dsimp only at h
    rcases hd : cbcDecrypt (D key) iv c with _ | o
    · rw [hd] at h
      exact absurd h (by simp)
    · rw [hd] at h
      cases h
      exact ⟨rfl, rfl⟩

/-! ### Claim theorems -/

/-- C1: the claim states that any chunk partition of length-prefixed messages
— including one byte at a time, with the 2-byte header split across chunks —
makes the inbound `ChunkingStream` decoder emit exactly the original messages.
The code violates this: a 1-byte chunk at a message boundary reads `chunk[1]`
out of bounds (`undefined`), sets `_expectedLength` to `NaN`, and the decoder
never emits anything again (the completion test `NaN === NaN` is always
false).  This theorem evaluates the decoder at the failing input: feeding the
five bytes of the encoding of the message `[1, 2, 3]` one byte at a time
emits no frame and leaves the poisoned `NaN` state, while feeding the same
five bytes as one chunk emits exactly the message, exposing the divergence. -/
theorem C1_split_header_wedges_inbound_decoder :
    ChunkingStream.runChunks ChunkingStream.initState [[0], [3], [1], [2], [3]] =
      .ok (⟨.nan, some [], .nan⟩, []) ∧
    ChunkingStream.runChunks ChunkingStream.initState [[0, 3, 1, 2, 3]] =
      .ok (⟨.int (-1), none, .int (-1)⟩, [[1, 2, 3]]) := by
  decide

/-- C2 (amended): after every frame the `CryptoStream` updates its direction's
IV to the FIRST 16 bytes (bytes `0..16`, not the last 16 as claimed) of the
ciphertext side of that frame — the produced ciphertext for the encrypt
direction, the input chunk for the decrypt direction — and both directions'
IVs are initialized from session-key bytes `16..32` by the
`'set-session-key'` handshake step; the two stream states are separate values
and evolve independently. -/
theorem C2_iv_update_first16_and_init (E D : List Nat → List Nat → List Nat) :
    (∀ (dp dpub : List Nat → List Nat) (hmac : List Nat → List Nat → List Nat)
        (data : List Nat) (setup : TCPDevice.SessionSetup),
      TCPDevice.setSessionKeyStep dp dpub hmac data = .ok setup →
      setup.cipherState.iv = (setup.sessionKey.drop 16).take 16 ∧
      setup.decipherState.iv = (setup.sessionKey.drop 16).take 16) ∧
    (∀ (key iv m : List Nat), m ≠ [] →
      CryptoStream.transform E D ⟨key, iv, .encrypt⟩ m =
        .ok (⟨key, (cbcEncrypt (E key) iv m).take 16, .encrypt⟩,
          cbcEncrypt (E key) iv m)) ∧
    (∀ (key iv c : List Nat) (s : CryptoStream.State) (out : List Nat),
      CryptoStream.transform E D ⟨key, iv, .decrypt⟩ c = .ok (s, out) →
      s.iv = c.take 16) := by
  refine ⟨?_, transform_encrypt E D,
    fun key iv c s out h => (transform_decrypt_iv E D key iv c s out h).1⟩
  intro dp dpub hmac data setup hsetup
  unfold TCPDevice.setSessionKeyStep at hsetup
  dsimp only at hsetup
  split at hsetup
  · exact absurd hsetup (by simp)
  · cases hsetup
    exact ⟨rfl, rfl⟩

/-- C2 witness: the theorem instantiated at concrete inputs — a session key of
forty 7-bytes (both IVs become bytes `16..32`), a 1-byte plaintext through the
encrypt direction, and a concrete 32-byte ciphertext through the decrypt
direction. -/
theorem C2_iv_update_witness :
    (List.replicate 16 7 : List Nat) = ((List.replicate 40 7).drop 16).take 16 ∧
    CryptoStream.transform (fun _ b => b) (fun _ b => b)
        ⟨[], List.replicate 16 0, .encrypt⟩ [1] =
      .ok (⟨[], (cbcEncrypt (fun b => b) (List.replicate 16 0) [1]).take 16, .encrypt⟩,
        cbcEncrypt (fun b => b) (List.replicate 16 0) [1]) ∧
    (List.replicate 16 0 : List Nat) =
      (List.replicate 16 0 ++ List.replicate 16 16).take 16 := by
  obtain ⟨hA, hB, hC⟩ := C2_iv_update_first16_and_init (fun _ b => b) (fun _ b => b)
  refine ⟨?_, hB [] (List.replicate 16 0) [1] (by decide), ?_⟩
  · exact (hA (fun _ => List.replicate 40 7) (fun _ => []) (fun _ _ => []) [] _ rfl).1
  · exact hC [] (List.replicate 16 0) (List.replicate 16 0 ++ List.replicate 16 16)
      ⟨[], List.replicate 16 0, .decrypt⟩ (List.replicate 16 0) (by decide)

/-- C2 counterexample: with the identity block cipher, decrypting the 32-byte
ciphertext `0^16 ++ 16^16` succeeds and sets the next IV to the FIRST 16
bytes of the input, which differs from the last 16 bytes that the claim
prescribes. -/
theorem C2_last16_counterexample :
    CryptoStream.transform (fun _ b => b) (fun _ b => b)
        ⟨[], List.replicate 16 0, .decrypt⟩ (List.replicate 16 0 ++ List.replicate 16 16) =
      .ok (⟨[], List.replicate 16 0, .decrypt⟩, List.replicate 16 0) ∧
    (List.replicate 16 0 : List Nat) ≠
      (List.replicate 16 0 ++ List.replicate 16 16).drop
        ((List.replicate 16 0 ++ List.replicate 16 16).length - 16) := by
  decide

/-- C3: the claim states that the handshake raises the fatal
`'HMAC did not match'` error if and only if the decrypted signed HMAC differs
from the locally computed one.  The code tests
`hash.compare(decryptedHMAC) === -1`, which only fires when `hash` sorts
BEFORE `decryptedHMAC`; a mismatch ordered the other way is silently
accepted.  This theorem evaluates the `'set-session-key'` step at such a
failing input: the computed hash `[2, 0, ...]` differs from the decrypted
value `[1, 0, ...]`, `bufCompare` returns `1`, and the step succeeds instead
of raising. -/
theorem C3_hmac_mismatch_not_always_fatal :
    (TCPDevice.setSessionKeyStep (fun _ => List.replicate 40 0)
      (fun _ => 1 :: List.replicate 19 0)
      (fun _ _ => 2 :: List.replicate 19 0) (List.replicate 256 0)).isOk = true ∧
    (2 :: List.replicate 19 0 : List Nat) ≠ 1 :: List.replicate 19 0 ∧
    bufCompare (2 :: List.replicate 19 0) (1 :: List.replicate 19 0) = 1 := by
  decide

/-- C4 (amended): pushing two adjacent messages through an encrypt-direction
`CryptoStream` with initial IV `iv0` produces `c1 = CBC-E(K, iv0, m1)` and
`c2 = CBC-E(K, first16(c1), m2)` — the chain uses the FIRST 16 bytes of the
previous ciphertext, not the last 16 as claimed — and pushing `[c1, c2]`
through a decrypt-direction stream initialized with the same key and `iv0`
reproduces `[m1, m2]` (the decrypt chain uses `first16(c1)` likewise, so the
round trip holds).  The AES-128 block permutation is abstracted as `E key` /
`D key` with `D key` a left inverse of `E key` on 16-byte blocks. -/
theorem C4_cbc_chain_first16_roundtrip (E D : List Nat → List Nat → List Nat)
    (key iv0 m1 m2 : List Nat)
    (hiv : iv0.length = 16) (h1 : m1 ≠ []) (h2 : m2 ≠ [])
    (hE : ∀ b, b.length = 16 → (E key b).length = 16)
    (hDE : ∀ b, b.length = 16 → D key (E key b) = b) :
    CryptoStream.runCrypto E D ⟨key, iv0, .encrypt⟩ [m1, m2] =
      .ok (⟨key, (cbcEncrypt (E key) ((cbcEncrypt (E key) iv0 m1).take 16) m2).take 16,
            .encrypt⟩,
        [cbcEncrypt (E key) iv0 m1,
         cbcEncrypt (E key) ((cbcEncrypt (E key) iv0 m1).take 16) m2]) ∧
    CryptoStream.runCrypto E D ⟨key, iv0, .decrypt⟩
        [cbcEncrypt (E key) iv0 m1,
         cbcEncrypt (E key) ((cbcEncrypt (E key) iv0 m1).take 16) m2] =
      .ok (⟨key, (cbcEncrypt (E key) ((cbcEncrypt (E key) iv0 m1).take 16) m2).take 16,
            .decrypt⟩,
        [m1, m2]) := by
  set c1 := cbcEncrypt (E key) iv0 m1 with hc1
  have hc1len : 16 ≤ c1.length := cbcEncrypt_length_ge_16 (E key) hE iv0 m1 hiv
  have hiv2 : (c1.take 16).length = 16 := by
    rw [List.length_take]
    omega
  set c2 := cbcEncrypt (E key) (c1.take 16) m2 with hc2
  have hc1ne : c1 ≠ [] := cbcEncrypt_ne_nil (E key) hE iv0 m1 hiv
  have hc2ne : c2 ≠ [] := cbcEncrypt_ne_nil (E key) hE (c1.take 16) m2 hiv2
  constructor
  · have e1 := transform_encrypt E D key iv0 m1 h1
    have e2 := transform_encrypt E D key (c1.take 16) m2 h2
    simp only [CryptoStream.runCrypto, e1, ← hc1, e2, ← hc2]
  · have d1 := transform_decrypt_eq E D key iv0 c1 m1 hc1ne
      (cbcDecrypt_cbcEncrypt (E key) (D key) hE hDE iv0 m1 hiv)
    have d2 := transform_decrypt_eq E D key (c1.take 16) c2 m2 hc2ne
      (cbcDecrypt_cbcEncrypt (E key) (D key) hE hDE (c1.take 16) m2 hiv2)
    simp only [CryptoStream.runCrypto, d1, d2]

/-- C4 witness: the amended chain theorem at the identity block cipher, a
16-byte all-zero initial IV and the messages `[1]` and `[2]`. -/
theorem C4_cbc_chain_witness :
    CryptoStream.runCrypto (fun _ b => b) (fun _ b => b)
        ⟨[], List.replicate 16 0, .encrypt⟩ [[1], [2]] =
      .ok (⟨[], (cbcEncrypt (fun b => b)
              ((cbcEncrypt (fun b => b) (List.replicate 16 0) [1]).take 16) [2]).take 16,
            .encrypt⟩,
        [cbcEncrypt (fun b => b) (List.replicate 16 0) [1],
         cbcEncrypt (fun b => b)
           ((cbcEncrypt (fun b => b) (List.replicate 16 0) [1]).take 16) [2]]) ∧
    CryptoStream.runCrypto (fun _ b => b) (fun _ b => b)
        ⟨[], List.replicate 16 0, .decrypt⟩
        [cbcEncrypt (fun b => b) (List.replicate 16 0) [1],
         cbcEncrypt (fun b => b)
           ((cbcEncrypt (fun b => b) (List.replicate 16 0) [1]).take 16) [2]] =
      .ok (⟨[], (cbcEncrypt (fun b => b)
              ((cbcEncrypt (fun b => b) (List.replicate 16 0) [1]).take 16) [2]).take 16,
            .decrypt⟩,
        [[1], [2]]) :=
  C4_cbc_chain_first16_roundtrip (fun _ b => b) (fun _ b => b) [] (List.replicate 16 0)
    [1] [2] (by decide) (by decide) (by decide) (fun b hb => hb) (fun b hb => rfl)

/-- C4 counterexample: with the identity block cipher, key `[]`, initial IV
`0^16`, `m1 = 0^16` (so `c1 = 0^16 ++ 16^16` spans two blocks) and
`m2 = [0]`, the second ciphertext the stream actually produces differs from
`CBC-E(K, last16(c1), m2)` prescribed by the claim. -/
theorem C4_last16_chain_counterexample :
    CryptoStream.runCrypto (fun _ b => b) (fun _ b => b)
        ⟨[], List.replicate 16 0, .encrypt⟩ [List.replicate 16 0, [0]] =
      .ok (⟨[], 0 :: List.replicate 15 15, .encrypt⟩,
        [List.replicate 16 0 ++ List.replicate 16 16, 0 :: List.replicate 15 15]) ∧
    (0 :: List.replicate 15 15 : List Nat) ≠
      cbcEncrypt (fun b => b)
        ((List.replicate 16 0 ++ List.replicate 16 16).drop
          ((List.replicate 16 0 ++ List.replicate 16 16).length - 16)) [0] := by
  decide

/-- C5 (amended): after a user-initiated `disconnect()` no subsequent socket
`error`/`close`/`timeout` event changes the session state or causes a
reconnect (the listeners are removed and `_reconnect` is guarded by
`_isDisconnected`); however the session is NOT fully terminal as claimed: a
subsequent `connect()` proceeds (it checks only `_isConnecting`, creating a
second socket below), and a reconnect timeout scheduled before the
disconnect is never cancelled — the source keeps no handle to it — so its
firing invokes the unguarded `connect()` and the session reconnects. -/
theorem C5_socket_events_inert_after_disconnect :
    (∀ s : TCPDevice.Ctl, s.isDisconnected = true → ∀ evs : List TCPDevice.DevEvent,
      (∀ e ∈ evs, e = .socketFail) → TCPDevice.runDevice s evs = s) ∧
    (TCPDevice.runDevice TCPDevice.initCtl
      [.userConnect, .userDisconnect, .userConnect]).socketsCreated = 2 ∧
    (TCPDevice.runDevice TCPDevice.initCtl
      [.userConnect, .socketFail, .userDisconnect, .reconnectTimerFires]).isConnecting
      = true := by
  refine ⟨?_, by decide, by decide⟩
  intro s hs evs
  induction evs generalizing s with
  | nil => intro _; rfl
  | cons e es ih =>
    intro hall
    have he : e = TCPDevice.DevEvent.socketFail := hall e (List.mem_cons_self e es)
    subst he
    have hstep : TCPDevice.devStep s .socketFail = s := by
      show (if s.listenersAttached = true then TCPDevice.reconnectHandler s else s) = s
      split
      · unfold TCPDevice.reconnectHandler
        rw [if_pos hs]
      · rfl
    show TCPDevice.runDevice (TCPDevice.devStep s .socketFail) es = s
    rw [hstep]
    exact ih s hs fun e hmem => hall e (List.mem_cons_of_mem _ hmem)

/-- C5 witness: the inertness part of the theorem applied to the concrete
state reached by disconnecting a fresh device and two socket failures. -/
theorem C5_socket_events_witness :
    TCPDevice.runDevice (TCPDevice.disconnectUser TCPDevice.initCtl)
      [.socketFail, .socketFail] = TCPDevice.disconnectUser TCPDevice.initCtl :=
  C5_socket_events_inert_after_disconnect.1
    (TCPDevice.disconnectUser TCPDevice.initCtl) (by decide)
    [.socketFail, .socketFail] (by decide)

/-- C5 counterexample: the trace connect, socket error (which schedules the
15-second reconnect), user `disconnect()`, timer fires — ends with the
session connecting again (`isConnecting = true`, a second socket created),
refuting both "a subsequent `connect()` is a no-op" and "any scheduled
reconnect timer is cancelled so it never fires a reconnection". -/
theorem C5_disconnect_not_terminal_counterexample :
    (TCPDevice.runDevice TCPDevice.initCtl
      [.userConnect, .socketFail, .userDisconnect, .reconnectTimerFires]).isConnecting
      = true ∧
    (TCPDevice.runDevice TCPDevice.initCtl
      [.userConnect, .socketFail, .userDisconnect, .reconnectTimerFires]).socketsCreated
      = 2 ∧
    (TCPDevice.runDevice TCPDevice.initCtl
      [.userConnect, .socketFail, .userDisconnect]).pendingReconnects = 1 ∧
    TCPDevice.runDevice TCPDevice.initCtl [.userConnect, .userDisconnect, .userConnect] ≠
      TCPDevice.runDevice TCPDevice.initCtl [.userConnect, .userDisconnect] := by
  decide

/-- C6: within a session whose `'set-session-key'` step succeeded, the
message-id counter starts from the initial value delivered in the session
secrets (`(sessionKey[32] << 8) | sessionKey[33]`), and every outbound packet
takes the next value of `_nextMessageID`: the id of the `k`-th packet is
`(init + k) mod 65536`, a strictly increasing sequence modulo 65536 with no
skips, and no id recurs within any window of fewer than 65536 packets (before
the counter wraps). -/
theorem C6_message_id_sequence (sessionKey : List Nat) (hsk : ∀ x ∈ sessionKey, x < 256)
    (dpub : List Nat → List Nat) (hmac : List Nat → List Nat → List Nat)
    (data : List Nat) (setup : TCPDevice.SessionSetup)
    (hsetup : TCPDevice.setSessionKeyStep (fun _ => sessionKey) dpub hmac data = .ok setup) :
    (∀ k, TCPDevice.messageIDAfter setup.messageID k = (setup.messageID + k) % 65536) ∧
    (∀ a b : Nat, a < b → b < a + 65536 →
      TCPDevice.messageIDAfter setup.messageID a ≠
        TCPDevice.messageIDAfter setup.messageID b) := by
  have hmid : setup.messageID = (sessionKey.getD 32 0 <<< 8) ||| sessionKey.getD 33 0 := by
    unfold TCPDevice.setSessionKeyStep at hsetup
    dsimp only at hsetup
    split at hsetup
    · exact absurd hsetup (by simp)
    · cases hsetup
      rfl
  have hlt : setup.messageID < 65536 := by
    rw [hmid]
    have h32 := getD_lt_256 sessionKey hsk 32
    have h33 := getD_lt_256 sessionKey hsk 33
    have hs : sessionKey.getD 32 0 <<< 8 < 2 ^ 16 := by
      rw [Nat.shiftLeft_eq]
      have he : (2 : Nat) ^ 16 = 256 * 2 ^ 8 := by norm_num
      rw [he]
      exact Nat.mul_lt_mul_of_lt_of_le h32 (le_refl _) (by norm_num)
    have ho : sessionKey.getD 33 0 < 2 ^ 16 := by omega
    have := Nat.or_lt_two_pow hs ho
    omega
  have hform : ∀ k, TCPDevice.messageIDAfter setup.messageID k =
      (setup.messageID + k) % 65536 := by
    intro k
    induction k with
    | zero => simpa [TCPDevice.messageIDAfter] using (Nat.mod_eq_of_lt hlt).symm
    | succ k ih =>
      show TCPDevice.nextMessageID (TCPDevice.messageIDAfter setup.messageID k) = _
      rw [ih]
      show (if (setup.messageID + k) % 65536 + 1 ≥ TCPDevice.COUNTER_MAX then 0
            else (setup.messageID + k) % 65536 + 1) = _
      unfold TCPDevice.COUNTER_MAX
      split <;> omega
  refine ⟨hform, fun a b hab hw heq => ?_⟩
  rw [hform a, hform b] at heq
  omega

/-- C6 witness: a session key of forty 7-bytes yields the initial counter
1799; the third packet's id is `(1799 + 3) % 65536` and the first and third
ids differ. -/
theorem C6_message_id_witness :
    TCPDevice.messageIDAfter 1799 3 = (1799 + 3) % 65536 ∧
    TCPDevice.messageIDAfter 1799 1 ≠ TCPDevice.messageIDAfter 1799 3 := by
  obtain ⟨h1, h2⟩ := C6_message_id_sequence (List.replicate 40 7) (by decide)
    (fun _ => []) (fun _ _ => []) [] _ rfl
  exact ⟨h1 3, h2 1 3 (by omega) (by omega)⟩

/-- C7: in state `'nonce'`, on receiving the server nonce the device builds
exactly the payload `nonce ++ device_id (12 bytes) ++ publicKeyDER`, encrypts
it under the server public RSA key (abstracted as `serverEncrypt`), writes
that single ciphertext to the raw socket (the write set of the step is
exactly that, before any framing or session cipher exists), and transitions
to `'set-session-key'` (the spec's `AwaitSessionKey`). -/
theorem C7_nonce_step (serverEncrypt : List Nat → List Nat)
    (deviceID publicKeyDER nonceData : List Nat) (h12 : deviceID.length = 12) :
    TCPDevice.onReadDataNonce serverEncrypt false deviceID publicKeyDER nonceData =
      { socketWrites := [serverEncrypt (nonceData ++ deviceID ++ publicKeyDER)],
        state := .setSessionKey } := by
  rfl

/-- C7 witness: the nonce step at a concrete 12-byte device id, a two-byte
DER stand-in and a 40-byte nonce, with the identity in place of RSA. -/
theorem C7_nonce_step_witness :
    TCPDevice.onReadDataNonce (fun b => b) false (List.replicate 12 1) [9, 9]
        (List.replicate 40 0) =
      { socketWrites := [List.replicate 40 0 ++ List.replicate 12 1 ++ [9, 9]],
        state := .setSessionKey } :=
  C7_nonce_step (fun b => b) (List.replicate 12 1) [9, 9] (List.replicate 40 0) (by decide)

/-- C8: on a Describe request the device replies with a `2.05` Content packet
carrying the canned JSON Describe blob and echoing the request token; the
describe flags equal payload byte 8 verbatim when the payload is longer than
8 bytes and that byte is at most 3 (`DESCRIBE_ALL`), and otherwise fall back
to `DESCRIBE_ALL`, logging the invalid byte exactly when the payload is long
enough to carry one. -/
theorem C8_describe_reply (payload requestToken : List Nat) (mid : Nat) :
    (payload.length > 8 → payload.getD 8 0 ≤ 3 →
      TCPDevice.describeFlags payload = payload.getD 8 0) ∧
    (payload.length ≤ 8 ∨ 3 < payload.getD 8 0 →
      TCPDevice.describeFlags payload = TCPDevice.DESCRIBE_ALL) ∧
    TCPDevice.DESCRIBE_ALL = 3 ∧
    (TCPDevice.describeLogsInvalidFlag payload = true ↔
      payload.length > 8 ∧ 3 < payload.getD 8 0) ∧
    (TCPDevice.onDescribeRequest payload requestToken mid).2.2.1.code = "2.05" ∧
    (TCPDevice.onDescribeRequest payload requestToken mid).2.2.1.token = requestToken ∧
    (TCPDevice.onDescribeRequest payload requestToken mid).2.2.1.payload =
      TCPDevice.descriptionBytes ∧
    (TCPDevice.onDescribeRequest payload requestToken mid).1 =
      TCPDevice.describeFlags payload := by
  have hall : TCPDevice.DESCRIBE_ALL = 3 := by decide
  refine ⟨?_, ?_, hall, ?_, rfl, rfl, rfl, rfl⟩
  · intro h1 h2
    unfold TCPDevice.describeFlags
    rw [if_pos ⟨h1, by omega⟩]
  · intro h
    unfold TCPDevice.describeFlags
    rw [if_neg]
    rintro ⟨ha, hb⟩
    rw [hall] at hb
    omega
  · unfold TCPDevice.describeLogsInvalidFlag
    split
    · rename_i hcond
      rw [hall] at hcond
      simp only [Bool.false_eq_true, false_iff]
      rintro ⟨h8, hgt⟩
      omega
    · split
      · rename_i hcond h8
        rw [hall] at hcond
        simp only [true_iff]
        refine ⟨h8, ?_⟩
        by_contra hle
        exact hcond ⟨h8, by omega⟩
      · rename_i hcond h8
        simp only [Bool.false_eq_true, false_iff]
        rintro ⟨hh, hgt⟩
        exact h8 hh

/-- C8 witness: the theorem applied to a 9-byte payload whose flag byte is 2
(used verbatim, no log), a 9-byte payload whose flag byte is 9 (falls back to
`DESCRIBE_ALL` and logs), and token `[171]`. -/
theorem C8_describe_reply_witness :
    TCPDevice.describeFlags (List.replicate 8 0 ++ [2]) =
      (List.replicate 8 0 ++ [2]).getD 8 0 ∧
    TCPDevice.describeFlags (List.replicate 9 9) = TCPDevice.DESCRIBE_ALL ∧
    (TCPDevice.describeLogsInvalidFlag (List.replicate 9 9) = true ↔
      (List.replicate 9 9).length > 8 ∧ 3 < (List.replicate 9 9).getD 8 0) ∧
    (TCPDevice.onDescribeRequest (List.replicate 8 0 ++ [2]) [171] 5).2.2.1.code = "2.05" ∧
    (TCPDevice.onDescribeRequest (List.replicate 8 0 ++ [2]) [171] 5).2.2.1.token = [171] := by
  obtain ⟨hA, hB, _, hD, hE, hF, _, _⟩ := C8_describe_reply (List.replicate 8 0 ++ [2]) [171] 5
  obtain ⟨_, hB2, _, hD2, _, _, _, _⟩ := C8_describe_reply (List.replicate 9 9) [171] 5
  exact ⟨hA (by decide) (by decide), hB2 (by decide), hD2, hE, hF⟩

/-- C9: a zero-length chunk presented to a `CryptoStream` of either direction
throws (`Chunk didn't have any length`) instead of producing output, while
the inbound `ChunkingStream` legally emits an empty frame for a `00 00`
length header — so such a frame is fatal when it reaches the cipher stage. -/
theorem C9_empty_frame_fatal_at_cipher :
    (∀ (E D : List Nat → List Nat → List Nat) (s : CryptoStream.State),
      CryptoStream.transform E D s [] = .error .emptyChunk) ∧
    ChunkingStream.process ChunkingStream.initState [0, 0] =
      .ok (⟨.int (-1), none, .int (-1)⟩, [[]]) := by
  refine ⟨fun E D s => rfl, by decide⟩

/-- C10: the outgoing `ChunkingStream` transform emits, for a message of any
length `L` (including `L > 65535`), the 2-byte header that is the big-endian
encoding of `L mod 65536` — byte 0 is `(L >>> 8)` stored modulo 256, byte 1
is `L & 255` — followed by all `L` message bytes, with no error on
overflow. -/
theorem C10_outgoing_header_mod65536 (msg : List Nat) :
    ChunkingStream.outgoingTransform msg =
      (msg.length % 65536) / 256 :: msg.length % 256 :: msg := by
  have h1 : msg.length &&& 255 = msg.length % 256 := by
    have h := Nat.and_pow_two_sub_one_eq_mod msg.length 8
    norm_num at h
    exact h
  have h2 : (msg.length % 4294967296) >>> 8 % 256 = msg.length % 65536 / 256 := by
    rw [Nat.shiftRight_eq_div_pow]
    have h3 : (msg.length % 4294967296) / 2 ^ 8 % 256 =
        (msg.length % 4294967296) % (2 ^ 8 * 256) / 2 ^ 8 :=
      (Nat.mod_mul_right_div_self _ _ _).symm
    rw [h3]
    have h4 : (2 : Nat) ^ 8 * 256 = 65536 := by norm_num
    rw [h4]
    rw [Nat.mod_mod_of_dvd _ (by norm_num : (65536 : ℕ) ∣ 4294967296)]
    norm_num
  show [(msg.length % 4294967296) >>> 8 % 256, (msg.length &&& 255) % 256] ++ msg = _
  rw [h1, h2]
  simp [Nat.mod_mod]
